import Mathlib

/-!
Verification of `cartman/text.py`, the text-processing helpers of the
cartman Trac command-line client.

Each Python function is embedded as an executable Lean definition over
`String` / `List Char`.  Library calls made by the source
(`difflib.get_close_matches`, the `re` regular-expression engine on the
fixed patterns the module uses, `json.loads`, `int(...)`) are embedded
from their documented semantics, restricted where noted to the fragment
the module exercises.  Fallible functions return `Except`, mirroring the
exceptions raised by the source.
-/

/-- Word characters of the regex class `\w`, restricted to ASCII
(`[a-zA-Z0-9_]`); the source only matches ASCII HTML. -/
def isWordChar (c : Char) : Bool :=
  c.isAlphanum || c == '_'

/-- ASCII whitespace as recognised by Python (`\s` and `str.strip`):
space, tab, newline, carriage return, vertical tab, form feed. -/
def isPySpace (c : Char) : Bool :=
  c == ' ' || c == '\t' || c == '\n' || c == '\r' || c == '\x0b' || c == '\x0c'

/-! ### difflib model

`difflib.get_close_matches(word, possibilities)` (called by `fuzzy_find`
with default `n = 3`, `cutoff = 0.6`) keeps every possibility whose
`SequenceMatcher` ratio against `word` is at least the cutoff and returns
the three largest, ordered by decreasing `(ratio, possibility)`.

The ratio is `2*M/T` where `M` is the total size of the matching blocks
found by the recursive longest-matching-block algorithm and `T` the sum
of the lengths.  The `quick_ratio` / `real_quick_ratio` pre-filters are
upper bounds on `ratio`, so membership is decided by `ratio >= cutoff`
alone.  Ratios are compared exactly as rationals (`2M/T >= 3/5` iff
`10M >= 3T`); for the short strings involved this agrees with the
floating-point comparison performed by Python.  The `autojunk`
heuristic only affects words of length at least 200 and no junk
predicate is passed, so both junk mechanisms are inert here and are not
modelled. -/

/-- Ascending list of the positions of `c` in `b` — the `b2j` table of
`SequenceMatcher` restricted to one element. -/
def positions (b : List Char) (c : Char) : List Nat :=
  (List.range b.length).filter (fun j => b.getD j ' ' == c)

/-- Lookup in the `j2len` association list of `find_longest_match`,
defaulting to 0 for absent keys. -/
def lookupJ (m : List (Nat × Nat)) (j : Nat) : Nat :=
  match m.find? (fun p => p.1 == j) with
  | some p => p.2
  | none => 0

/-- One row (one value of `i`) of the `find_longest_match` dynamic
program: extend diagonal runs ending at each occurrence `j` of `a[i]`
in `b`, updating the best block on strict improvement. -/
def flmStep (b : List Char) (blo bhi : Nat) (prev : List (Nat × Nat))
    (i : Nat) (c : Char) (best : Nat × Nat × Nat) :
    List (Nat × Nat) × (Nat × Nat × Nat) :=
  (positions b c).foldl
    (fun acc j =>
      if blo ≤ j ∧ j < bhi then
        let k := (if j = 0 then 0 else lookupJ prev (j - 1)) + 1
        let best2 := if k > acc.2.2.2 then (i + 1 - k, j + 1 - k, k) else acc.2
        ((j, k) :: acc.1, best2)
      else acc)
    ([], best)

/-- `SequenceMatcher.find_longest_match(alo, ahi, blo, bhi)`: the first
(earliest `i`, then earliest `j`) longest block `(i, j, k)` with
`a[i:i+k] == b[j:j+k]` inside the given ranges.  The post-loop junk
extension phases are no-ops because both junk sets are empty. -/
def flmLoop (a b : List Char) (alo ahi blo bhi : Nat) : Nat × Nat × Nat :=
  ((List.range' alo (ahi - alo)).foldl
    (fun (st : List (Nat × Nat) × (Nat × Nat × Nat)) i =>
      match a.get? i with
      | some c => flmStep b blo bhi st.1 i c st.2
      | none => ([], st.2))
    ([], (alo, blo, 0))).2

/-- Total size of the matching blocks of `get_matching_blocks` on the
range `a[alo:ahi]` versus `b[blo:bhi]`: recursively split around the
longest matching block.  `fuel` bounds the recursion depth; any value
above `(ahi - alo) + (bhi - blo)` is exact. -/
def matchedSize : Nat → List Char → List Char → Nat → Nat → Nat → Nat → Nat
  | 0, _, _, _, _, _, _ => 0
  | fuel + 1, a, b, alo, ahi, blo, bhi =>
    match flmLoop a b alo ahi blo bhi with
    | (i, j, k) =>
      if k = 0 then 0
      else matchedSize fuel a b alo i blo j + k
        + matchedSize fuel a b (i + k) ahi (j + k) bhi

/-- The `M` of `SequenceMatcher(a, b).ratio() = 2*M/T`. -/
def ratioM (a b : List Char) : Nat :=
  matchedSize (a.length + b.length + 1) a b 0 a.length 0 b.length

/-- `SequenceMatcher(x, word).ratio() >= 0.6`, compared exactly:
`2M/(|x|+|word|) >= 3/5`.  When both strings are empty Python defines
the ratio as 1.0; `0 >= 0` agrees. -/
def closeEnough (word x : String) : Bool :=
  decide (10 * ratioM x.toList word.toList ≥ 3 * (x.length + word.length))

/-- Python string comparison (`<`): lexicographic on code points. -/
def charListLt : List Char → List Char → Bool
  | _, [] => false
  | [], _ :: _ => true
  | c :: cs, d :: ds => decide (c < d) || (c == d && charListLt cs ds)

/-- Descending comparison on the pairs `(ratio, string)` used by
`heapq.nlargest` inside `get_close_matches`: `x` sorts strictly before
`y`.  `2*rx/tx > 2*ry/ty` iff `rx*ty > ry*tx`. -/
def ratioCmp (word x y : String) : Bool :=
  let rx := ratioM x.toList word.toList
  let ry := ratioM y.toList word.toList
  let tx := x.length + word.length
  let ty := y.length + word.length
  decide (rx * ty > ry * tx) || ((rx * ty == ry * tx) && charListLt y.toList x.toList)

/-- Insertion into a list sorted descending by `cmp`. -/
def insertDesc {α : Type} (cmp : α → α → Bool) (x : α) : List α → List α
  | [] => [x]
  | y :: ys => if cmp x y then x :: y :: ys else y :: insertDesc cmp x ys

/-- Insertion sort, descending by `cmp`. -/
def sortDesc {α : Type} (cmp : α → α → Bool) : List α → List α
  | [] => []
  | x :: xs => insertDesc cmp x (sortDesc cmp xs)

/-- `difflib.get_close_matches(word, possibilities)` with the default
`n = 3`, `cutoff = 0.6`: the possibilities whose ratio reaches the
cutoff, the best three first. -/
def get_close_matches (word : String) (possibilities : List String) : List String :=
  (sortDesc (ratioCmp word) (possibilities.filter (fun x => closeEnough word x))).take 3

/-! ### The lowercase-keyed dict of `fuzzy_find`

`options = {opt.lower(): opt for opt in options}` builds a dict whose
keys are the lowercased options in first-occurrence order and whose
value at a key is the last option lowering to it. -/

/-- Python `str.lower()`, restricted to ASCII case mapping (the system
option values and user commands the module compares are ASCII). -/
def pyLower (s : String) : String :=
  String.mk (s.toList.map Char.toLower)

/-- Keys of the dict, in insertion (first-occurrence) order. -/
def dictKeys (options : List String) : List String :=
  options.foldl (fun ks o => if pyLower o ∈ ks then ks else ks ++ [pyLower o]) []

/-- Dict lookup: the last option whose lowercase form is `k` (dict
comprehension assignments overwrite). -/
def dictGet (options : List String) (k : String) : Option String :=
  options.foldl (fun acc o => if pyLower o = k then some o else acc) none

/-! ### The word-boundary fallback of `fuzzy_find`

The fallback interpolates the user value, unescaped, into the pattern
`.*\b<value>\b.*` and runs `re.match` against each lowercased option.
The embedding covers the fragment the pattern can take: when the value
has no regex metacharacter other than the wildcard `.` — so ordinary
text with hyphens, commas, colons, quotes, spaces and so on — the
interpolated pattern compiles and denotes a fixed-length window of
literal characters and wildcards between word boundaries.  A value
holding any other metacharacter is modelled as a compile failure
(`re.error`), which is what CPython raises for the inputs this
development evaluates there (an unbalanced `(` yields
`re.error: missing ), unterminated subpattern`); a few such values
(balanced groups, alternation) would in fact compile, and no theorem
below evaluates the fallback on them. -/

/-- Regex metacharacters other than the `.` wildcard: a value free of
these interpolates into a pattern CPython compiles, with each `.`
matching any character but a newline and every other character matching
itself.  The codes 123 and 125 are the two brace characters. -/
def isReMeta (c : Char) : Bool :=
  c == '(' || c == ')' || c == '[' || c == ']' || c == '|' || c == '\\'
    || c == '*' || c == '+' || c == '?' || c == '^' || c == '$'
    || c.toNat == 123 || c.toNat == 125

/-- The interpolated pattern `.*\b<value>\b.*` compiles in the modelled
fragment: `value` free of metacharacters other than the wildcard. -/
def wordPatternCompiles (value : String) : Bool :=
  value.toList.all (fun c => !(isReMeta c))

/-- One pattern atom of the interpolated value against one subject
character: `.` matches anything but a newline, all else is literal. -/
def atomMatch (p c : Char) : Bool :=
  if p == '.' then c != '\n' else p == c

/-- The interpolated value, atom by atom, against a window at the head
of the subject. -/
def windowMatch : List Char → List Char → Bool
  | [], _ => true
  | _ :: _, [] => false
  | p :: ps, c :: cs => atomMatch p c && windowMatch ps cs

/-- The `\b` assertion of the `re` engine at position `i` of `cs`: the
characters on the two sides (out of range counts as non-word) disagree
on wordness. -/
def wordBoundaryAt (cs : List Char) (i : Nat) : Bool :=
  (if i = 0 then false else ((cs.get? (i - 1)).map isWordChar).getD false)
    != (((cs.get? i).map isWordChar).getD false)

/-- `re.match(r".*\b<value>\b.*", l_opt)` succeeds: some window of
`l_opt` matching the value atom by atom sits between word boundaries
(evaluated on the actual subject characters), with no newline before it
(the leading `.*` cannot cross a newline; the trailing `.*` always
succeeds since `re.match` needs no full match). -/
def wordMatch (value l_opt : String) : Bool :=
  (List.range (l_opt.toList.length + 1)).any (fun i =>
    (l_opt.toList.take i).all (fun ch => ch != '\n')
      && windowMatch value.toList (l_opt.toList.drop i)
      && wordBoundaryAt l_opt.toList i
      && wordBoundaryAt l_opt.toList (i + value.toList.length))

/-- The fallback loop of `fuzzy_find`: for each dict key, test the
word pattern and collect the keys that match, in dict order.  The
pattern is compiled inside the loop, so an empty dict raises nothing
even for a malformed value, while a non-empty dict raises `re.error`
on the first iteration. -/
def fallbackMatches (value : String) (keys : List String) : Except String (List String) :=
  if keys.isEmpty then .ok []
  else if wordPatternCompiles value then .ok (keys.filter (fun k => wordMatch value k))
  else .error "re.error"

/-- The `matches` list of `fuzzy_find` after both phases: the difflib
close matches when any exist, otherwise the word-boundary fallback
matches (or its `re.error`). -/
def surviving (value : String) (options : List String) : Except String (List String) :=
  if (get_close_matches (pyLower value) (dictKeys options)).isEmpty then
    fallbackMatches (pyLower value) (dictKeys options)
  else .ok (get_close_matches (pyLower value) (dictKeys options))

/-- `fuzzy_find(value, options)`: lowercase the value, build the
lowercase-keyed dict; an exact key hit returns its canonical option at
once; otherwise a sole surviving candidate from the near-miss phase or
the fallback phase is resolved through the dict, and anything else
returns `None`.  `.error` carries the `re.error` the fallback can
raise. -/
def fuzzy_find (value : String) (options : List String) : Except String (Option String) :=
  if pyLower value ∈ dictKeys options then .ok (dictGet options (pyLower value))
  else
    match surviving value options with
    | .error e => .error e
    | .ok [m] => .ok (dictGet options m)
    | .ok _ => .ok none

/-- Decidable equality for `Except`, used to evaluate the embedded
functions on concrete inputs. -/
instance {e a : Type} [DecidableEq e] [DecidableEq a] : DecidableEq (Except e a)
  | .ok x, .ok y =>
    if h : x = y then .isTrue (by rw [h])
    else .isFalse (by intro hc; cases hc; exact h rfl)
  | .ok _, .error _ => .isFalse (by intro hc; cases hc)
  | .error _, .ok _ => .isFalse (by intro hc; cases hc)
  | .error x, .error y =>
    if h : x = y then .isTrue (by rw [h])
    else .isFalse (by intro hc; cases hc; exact h rfl)

/-- Modelled from the spec: the `exceptions` module of the repository (not
under `src/`) defines the two error classes the module raises — the
recoverable `InvalidParameter` ("invalid parameter" validation error)
and the non-recoverable `FatalError` (expected HTML structure missing). -/
inductive CartmanError where
  | invalidParameter (msg : String)
  | fatalError (msg : String)
  deriving DecidableEq

/-! ### `validate_id` -/

/-- The dynamic argument of `validate_id`: per the spec it receives a
string, an integer, or `None`. -/
inductive RawValue where
  | str (s : String)
  | int (n : Int)
  | pyNone
  deriving DecidableEq

/-- Python `str.strip()` restricted to ASCII whitespace. -/
def pyStrip (cs : List Char) : List Char :=
  ((cs.dropWhile isPySpace).reverse.dropWhile isPySpace).reverse

/-- Numeric value of a digit string. -/
def digitsVal (ds : List Char) : Nat :=
  ds.foldl (fun acc c => 10 * acc + (c.toNat - '0'.toNat)) 0

/-- Python `int(s)` on a string: optional surrounding whitespace, an
optional sign, then one or more ASCII digits; anything else raises
`ValueError` (`none` here).  Underscore digit separators and non-ASCII
digits are not modelled. -/
def pyIntOfString (s : String) : Option Int :=
  match pyStrip s.toList with
  | [] => none
  | '+' :: ds => if ds ≠ [] ∧ ds.all Char.isDigit then some (digitsVal ds) else none
  | '-' :: ds => if ds ≠ [] ∧ ds.all Char.isDigit then some (-(digitsVal ds : Int)) else none
  | ds => if ds.all Char.isDigit then some (digitsVal ds) else none

/-- `validate_id(raw_value)`: convert with `int(...)`; a `ValueError`
(unparsable string) or `TypeError` (`None`) is caught and re-raised as
`InvalidParameter`. -/
def validate_id (raw_value : RawValue) : Except CartmanError Int :=
  match raw_value with
  | .int n => .ok n
  | .str s =>
    match pyIntOfString s with
    | some n => .ok n
    | none => .error (.invalidParameter "invalid identifier (should be an int)")
  | .pyNone => .error (.invalidParameter "invalid identifier (should be an int)")

/-! ### `extract_timestamp`

Pattern `name="ts" value="([^"]+)` under `re.search`: the leftmost
position where the literal prefix is followed by at least one
non-quote character; the capture is the maximal run of non-quote
characters (the `re.MULTILINE` flag only alters `^`/`$`, absent here). -/

/-- Literal part of the timestamp pattern. -/
def litTs : List Char := "name=\"ts\" value=\"".toList

/-- Leftmost match of the timestamp pattern, returning its capture. -/
def searchTs : List Char → Option String
  | [] => none
  | c :: rest =>
    if litTs.isPrefixOf (c :: rest) then
      let cap := ((c :: rest).drop litTs.length).takeWhile (fun ch => ch != '"')
      if cap.isEmpty then searchTs rest else some (String.mk cap)
    else searchTs rest

/-- `extract_timestamp(raw_html)`: the captured `ts` value, or
`FatalError` when the pattern is absent. -/
def extract_timestamp (raw_html : String) : Except CartmanError String :=
  match searchTs raw_html.toList with
  | some t => .ok t
  | none => .error (.fatalError "unable to fetch timestamp")

/-! ### `extract_statuses`

Pattern `<input type="radio" [^<]+ name="action" value="([^"]+)` under
`re.findall`: non-overlapping matches left to right.  The greedy
`[^<]+` backtracks from the longest run of non-`<` characters to the
largest offset at which the second literal (which contains no `<`)
follows with a non-empty capture after it. -/

/-- First literal of the radio-input pattern. -/
def litRadA : List Char := "<input type=\"radio\" ".toList

/-- Second literal of the radio-input pattern. -/
def litRadB : List Char := " name=\"action\" value=\"".toList

/-- Backtracking over the length `j` consumed by `[^<]+`, largest
first: accept when the second literal follows and captures at least
one non-quote character, returning the capture and the suffix after
the match. -/
def tryRadJ (after : List Char) : Nat → Option (String × List Char)
  | 0 => none
  | j + 1 =>
    let tailJ := after.drop (j + 1)
    if litRadB.isPrefixOf tailJ then
      let capd := tailJ.drop litRadB.length
      let cap := capd.takeWhile (fun ch => ch != '"')
      if cap.isEmpty then tryRadJ after j
      else some (String.mk cap, capd.drop cap.length)
    else tryRadJ after j

/-- Match of the radio-input pattern anchored at the head of `cs`. -/
def matchRadAt (cs : List Char) : Option (String × List Char) :=
  if litRadA.isPrefixOf cs then
    let after := cs.drop litRadA.length
    tryRadJ after (after.takeWhile (fun ch => ch != '<')).length
  else none

/-- The `re.findall` scan: try each start position left to right,
resuming after the end of every match.  `fuel` dominates the number of
scan steps; the input length suffices. -/
def scanRad (fuel : Nat) (cs : List Char) : List String :=
  match fuel, cs with
  | 0, _ => []
  | _, [] => []
  | f + 1, c :: rest =>
    match matchRadAt (c :: rest) with
    | some (cap, after) => cap :: scanRad f after
    | none => scanRad f rest

/-- `extract_statuses(raw_html)`: the ordered captures of every
radio-`action` input; empty when none match. -/
def extract_statuses (raw_html : String) : List String :=
  scanRad raw_html.length raw_html.toList

/-! ### `extract_status_from_ticket_page`

Pattern `leave</label>[\s\n]*as (\w+)[\s\n]*<` under `re.search`.  The
pattern is deterministic: `as ` starts with a non-space character so it
can only follow the maximal whitespace run, and shortening the greedy
`\w+` leaves a word character where only whitespace or `<` may stand. -/

/-- First literal of the status pattern. -/
def litLeave : List Char := "leave</label>".toList

/-- Match of the status pattern anchored at the head of `cs`,
returning the captured word. -/
def matchLeaveAt (cs : List Char) : Option String :=
  if litLeave.isPrefixOf cs then
    let r1 := cs.drop litLeave.length
    let r2 := r1.dropWhile isPySpace
    if ("as ".toList).isPrefixOf r2 then
      let r3 := r2.drop 3
      let w := r3.takeWhile isWordChar
      if w.isEmpty then none
      else
        match (r3.drop w.length).dropWhile isPySpace with
        | '<' :: _ => some (String.mk w)
        | _ => none
    else none
  else none

/-- Leftmost match of the status pattern. -/
def searchLeave : List Char → Option String
  | [] => none
  | c :: rest =>
    match matchLeaveAt (c :: rest) with
    | some w => some w
    | none => searchLeave rest

/-- `extract_status_from_ticket_page(raw_html)`: the captured status
word, or `FatalError` when the pattern is absent. -/
def extract_status_from_ticket_page (raw_html : String) : Except CartmanError String :=
  match searchLeave raw_html.toList with
  | some s => .ok s
  | none => .error (.fatalError "unable to fetch ticket status")

/-! ### `extract_properties`

Pattern `var properties=([^;]+)` under `re.findall`; the source parses
the first capture with `json.loads` and returns `{}` when there is no
match.  The JSON model covers objects, arrays, strings (with the
single-character escapes), integers, booleans and null; floats,
exponents and `\u` escapes are not modelled (the Trac pages parsed
here contain none). -/

/-- JSON values as produced by `json.loads`. -/
inductive Json where
  | null
  | bool (b : Bool)
  | num (n : Int)
  | str (s : String)
  | arr (xs : List Json)
  | obj (kvs : List (String × Json))

/-- JSON whitespace. -/
def isJsonWs (c : Char) : Bool :=
  c == ' ' || c == '\t' || c == '\n' || c == '\r'

/-- Skip JSON whitespace. -/
def skipWs (cs : List Char) : List Char :=
  cs.dropWhile isJsonWs

/-- Body of a JSON string after the opening quote: the decoded
characters and the rest after the closing quote. -/
def parseStringBody : List Char → Option (List Char × List Char)
  | [] => none
  | '"' :: rest => some ([], rest)
  | '\\' :: e :: rest =>
    (match e with
      | '"' => some '"'
      | '\\' => some '\\'
      | '/' => some '/'
      | 'n' => some '\n'
      | 't' => some '\t'
      | 'r' => some '\r'
      | 'b' => some '\x08'
      | 'f' => some '\x0c'
      | _ => none).bind
      (fun d => (parseStringBody rest).map
        (fun (pr : List Char × List Char) => (d :: pr.1, pr.2)))
  | c :: rest =>
    (parseStringBody rest).map
      (fun (pr : List Char × List Char) => (c :: pr.1, pr.2))

/-- Leading run of digits and the rest; fails when empty. -/
def parseDigits (cs : List Char) : Option (Nat × List Char) :=
  match cs.takeWhile Char.isDigit with
  | [] => none
  | ds => some (digitsVal ds, cs.drop ds.length)

mutual

/-- One JSON value (leading whitespace allowed) and the rest. -/
def parseValue : Nat → List Char → Option (Json × List Char)
  | 0, _ => none
  | f + 1, cs =>
    match skipWs cs with
    | 'n' :: 'u' :: 'l' :: 'l' :: rest => some (.null, rest)
    | 't' :: 'r' :: 'u' :: 'e' :: rest => some (.bool true, rest)
    | 'f' :: 'a' :: 'l' :: 's' :: 'e' :: rest => some (.bool false, rest)
    | '"' :: rest => (parseStringBody rest).map (fun pr => (.str (String.mk pr.1), pr.2))
    | '{' :: rest => parseObjStart f rest
    | '[' :: rest => parseArrStart f rest
    | '-' :: rest => (parseDigits rest).map (fun pr => (.num (-(pr.1 : Int)), pr.2))
    | other => (parseDigits other).map (fun pr => (.num pr.1, pr.2))

/-- Object members after `{`. -/
def parseObjStart : Nat → List Char → Option (Json × List Char)
  | 0, _ => none
  | f + 1, cs =>
    match skipWs cs with
    | '}' :: rest => some (.obj [], rest)
    | other =>
      (parsePair f other).bind (fun pr => parseObjRest f pr.2 [pr.1])

/-- Remaining members of an object: `,`-separated pairs until `}`. -/
def parseObjRest : Nat → List Char → List (String × Json) → Option (Json × List Char)
  | 0, _, _ => none
  | f + 1, cs, acc =>
    match skipWs cs with
    | '}' :: rest => some (.obj acc.reverse, rest)
    | ',' :: rest => (parsePair f rest).bind (fun pr => parseObjRest f pr.2 (pr.1 :: acc))
    | _ => none

/-- One `"key": value` pair. -/
def parsePair : Nat → List Char → Option ((String × Json) × List Char)
  | 0, _ => none
  | f + 1, cs =>
    match skipWs cs with
    | '"' :: rest =>
      (parseStringBody rest).bind (fun kp =>
        match skipWs kp.2 with
        | ':' :: r2 => (parseValue f r2).map (fun vp => ((String.mk kp.1, vp.1), vp.2))
        | _ => none)
    | _ => none

/-- Array elements after `[`. -/
def parseArrStart : Nat → List Char → Option (Json × List Char)
  | 0, _ => none
  | f + 1, cs =>
    match skipWs cs with
    | ']' :: rest => some (.arr [], rest)
    | other =>
      (parseValue f other).bind (fun vp => parseArrRest f vp.2 [vp.1])

/-- Remaining elements of an array: `,`-separated values until `]`. -/
def parseArrRest : Nat → List Char → List Json → Option (Json × List Char)
  | 0, _, _ => none
  | f + 1, cs, acc =>
    match skipWs cs with
    | ']' :: rest => some (.arr acc.reverse, rest)
    | ',' :: rest => (parseValue f rest).bind (fun vp => parseArrRest f vp.2 (vp.1 :: acc))
    | _ => none

end

/-- `json.loads(s)`: a single JSON document with nothing but
whitespace after it.  A fuel of the input length plus one bounds the
nesting depth, since every recursive step first consumes a character. -/
def json_loads (s : String) : Option Json :=
  match parseValue (s.length + 1) s.toList with
  | some (j, rest) => if (skipWs rest).isEmpty then some j else none
  | none => none

/-- Literal part of the properties pattern `var properties=([^;]+)`. -/
def litProp : List Char := "var properties=".toList

/-- Capture of the first (leftmost) match of the properties pattern:
the maximal non-empty run of non-semicolon characters after the
literal. -/
def searchProp : List Char → Option String
  | [] => none
  | c :: rest =>
    if litProp.isPrefixOf (c :: rest) then
      let cap := ((c :: rest).drop litProp.length).takeWhile (fun ch => ch != ';')
      if cap.isEmpty then searchProp rest else some (String.mk cap)
    else searchProp rest

/-- `extract_properties(raw_html)`: `{}` when the assignment is absent,
otherwise the parse of the first capture (`json.loads` raising on
malformed JSON is the `.error` case). -/
def extract_properties (raw_html : String) : Except String Json :=
  match searchProp raw_html.toList with
  | none => .ok (.obj [])
  | some tok =>
    match json_loads tok with
    | some j => .ok j
    | none => .error "json decode error"

/-! ### `extract_trac_version`

Pattern `Trac (\d+\.\d+\.\d+)` under `re.findall`; the source splits
the first capture on `.` and converts each component with `int`.  The
pattern is deterministic: shortening a greedy `\d+` leaves a digit
where `.` must stand. -/

/-- Match of the version pattern anchored at the head of `cs`,
returning the three numeric components. -/
def matchTracAt (cs : List Char) : Option (List Nat) :=
  if ("Trac ".toList).isPrefixOf cs then
    match parseDigits (cs.drop 5) with
    | none => none
    | some (d1, r1) =>
      match r1 with
      | '.' :: r2 =>
        match parseDigits r2 with
        | none => none
        | some (d2, r3) =>
          match r3 with
          | '.' :: r4 =>
            match parseDigits r4 with
            | none => none
            | some (d3, _) => some [d1, d2, d3]
          | _ => none
      | _ => none
  else none

/-- Leftmost match of the version pattern. -/
def searchTrac : List Char → Option (List Nat)
  | [] => none
  | c :: rest =>
    match matchTracAt (c :: rest) with
    | some v => some v
    | none => searchTrac rest

/-- `extract_trac_version(raw_html)`: the triple of components of the
first `Trac X.Y.Z` occurrence, or the empty sequence when none. -/
def extract_trac_version (raw_html : String) : List Nat :=
  match searchTrac raw_html.toList with
  | some v => v
  | none => []

/-! ### Structural lemmas about the dict and the candidate lists -/

/-- Membership in the accumulated key list of `dictKeys`. -/
theorem mem_dictKeys_aux (options : List String) (acc : List String) (k : String) :
    k ∈ options.foldl (fun ks o => if pyLower o ∈ ks then ks else ks ++ [pyLower o]) acc
      ↔ k ∈ acc ∨ ∃ o ∈ options, pyLower o = k := by
  induction options generalizing acc with
  | nil => simp
  | cons o os ih =>
    simp only [List.foldl_cons]
    rw [ih]
    by_cases h : pyLower o ∈ acc
    · rw [if_pos h]
      constructor
      · rintro (hk | ⟨o2, ho2, hl⟩)
        · exact Or.inl hk
        · exact Or.inr ⟨o2, List.mem_cons_of_mem o ho2, hl⟩
      · rintro (hk | ⟨o2, ho2, hl⟩)
        · exact Or.inl hk
        · rcases List.mem_cons.1 ho2 with rfl | ho3
          · exact Or.inl (hl ▸ h)
          · exact Or.inr ⟨o2, ho3, hl⟩
    · rw [if_neg h]
      constructor
      · rintro (hk | ⟨o2, ho2, hl⟩)
        · rcases List.mem_append.1 hk with hk1 | hk2
          · exact Or.inl hk1
          · exact Or.inr ⟨o, List.mem_cons_self o os, (List.mem_singleton.1 hk2).symm⟩
        · exact Or.inr ⟨o2, List.mem_cons_of_mem o ho2, hl⟩
      · rintro (hk | ⟨o2, ho2, hl⟩)
        · exact Or.inl (List.mem_append.2 (Or.inl hk))
        · rcases List.mem_cons.1 ho2 with rfl | ho3
          · exact Or.inl (List.mem_append.2 (Or.inr (List.mem_singleton.2 hl.symm)))
          · exact Or.inr ⟨o2, ho3, hl⟩

/-- A string is a dict key exactly when it is the lowercase form of
some option. -/
theorem mem_dictKeys (options : List String) (k : String) :
    k ∈ dictKeys options ↔ ∃ o ∈ options, pyLower o = k := by
  unfold dictKeys
  rw [mem_dictKeys_aux]
  simp

/-- Any value produced by the `dictGet` fold is the accumulator or a
matching option. -/
theorem dictGet_fold_mem (options : List String) (k : String) (acc : Option String)
    (x : String)
    (h : options.foldl (fun acc o => if pyLower o = k then some o else acc) acc = some x) :
    acc = some x ∨ (x ∈ options ∧ pyLower x = k) := by
  induction options generalizing acc with
  | nil => exact Or.inl h
  | cons o os ih =>
    simp only [List.foldl_cons] at h
    rcases ih _ h with h1 | h2
    · by_cases ho : pyLower o = k
      · rw [if_pos ho] at h1
        injection h1 with h1
        exact Or.inr ⟨h1 ▸ List.mem_cons_self o os, h1 ▸ ho⟩
      · rw [if_neg ho] at h1
        exact Or.inl h1
    · exact Or.inr ⟨List.mem_cons_of_mem o h2.1, h2.2⟩

/-- The `dictGet` fold keeps the accumulator populated. -/
theorem dictGet_fold_some (options : List String) (k : String) (acc : Option String)
    (h : acc.isSome) :
    (options.foldl (fun acc o => if pyLower o = k then some o else acc) acc).isSome := by
  induction options generalizing acc with
  | nil => exact h
  | cons o os ih =>
    simp only [List.foldl_cons]
    by_cases ho : pyLower o = k
    · rw [if_pos ho]
      exact ih (some o) rfl
    · rw [if_neg ho]
      exact ih acc h

/-- The `dictGet` fold finds a value once a matching option exists. -/
theorem dictGet_fold_isSome (options : List String) (k : String) (acc : Option String)
    (h : ∃ o ∈ options, pyLower o = k) :
    (options.foldl (fun acc o => if pyLower o = k then some o else acc) acc).isSome := by
  induction options generalizing acc with
  | nil => exact absurd h (by simp)
  | cons o os ih =>
    simp only [List.foldl_cons]
    by_cases ho : pyLower o = k
    · rw [if_pos ho]
      exact dictGet_fold_some os k (some o) rfl
    · rw [if_neg ho]
      obtain ⟨o2, ho2, hl⟩ := h
      rcases List.mem_cons.1 ho2 with rfl | ho3
      · exact absurd hl ho
      · exact ih acc ⟨o2, ho3, hl⟩

/-- Dict lookup at a key that some option lowers to returns a matching
option. -/
theorem dictGet_exists (options : List String) (k : String)
    (h : ∃ o ∈ options, pyLower o = k) :
    ∃ x, dictGet options k = some x ∧ x ∈ options ∧ pyLower x = k := by
  have hs := dictGet_fold_isSome options k none h
  obtain ⟨x, hx⟩ := Option.isSome_iff_exists.1 hs
  rcases dictGet_fold_mem options k none x hx with h1 | h2
  · cases h1
  · exact ⟨x, hx, h2⟩

/-- Insertion adds no new elements. -/
theorem mem_insertDesc {α : Type} (cmp : α → α → Bool) (x z : α) (l : List α)
    (h : z ∈ insertDesc cmp x l) : z = x ∨ z ∈ l := by
  induction l with
  | nil =>
    simp only [insertDesc, List.mem_singleton] at h
    exact Or.inl h
  | cons y ys ih =>
    unfold insertDesc at h
    by_cases hc : cmp x y = true
    · rw [if_pos hc] at h
      rcases List.mem_cons.1 h with h1 | h2
      · exact Or.inl h1
      · exact Or.inr h2
    · rw [if_neg hc] at h
      rcases List.mem_cons.1 h with h1 | h2
      · exact Or.inr (List.mem_cons.2 (Or.inl h1))
      · rcases ih h2 with h3 | h4
        · exact Or.inl h3
        · exact Or.inr (List.mem_cons.2 (Or.inr h4))

/-- Sorting adds no new elements. -/
theorem mem_sortDesc {α : Type} (cmp : α → α → Bool) (l : List α) :
    ∀ z ∈ sortDesc cmp l, z ∈ l := by
  induction l with
  | nil => intro z hz; simp [sortDesc] at hz
  | cons x xs ih =>
    intro z hz
    unfold sortDesc at hz
    rcases mem_insertDesc cmp x z (sortDesc cmp xs) hz with rfl | h2
    · exact List.mem_cons_self z xs
    · exact List.mem_cons_of_mem x (ih z h2)

/-- Close matches are drawn from the possibilities. -/
theorem gcm_subset (word : String) (ps : List String) :
    ∀ m ∈ get_close_matches word ps, m ∈ ps := by
  intro m hm
  unfold get_close_matches at hm
  exact List.filter_subset' ps (mem_sortDesc _ _ m (List.take_subset 3 _ hm))

/-- Fallback matches are drawn from the keys. -/
theorem fallback_subset (value : String) (keys : List String) (s : List String)
    (h : fallbackMatches value keys = .ok s) : ∀ m ∈ s, m ∈ keys := by
  unfold fallbackMatches at h
  split at h
  · injection h with h2
    subst h2
    intro m hm
    cases hm
  · split at h
    · injection h with h2
      subst h2
      intro m hm
      exact List.filter_subset' keys hm
    · cases h

/-- Every surviving candidate of either phase is a dict key. -/
theorem surviving_subset (value : String) (options : List String) (s : List String)
    (h : surviving value options = .ok s) : ∀ m ∈ s, m ∈ dictKeys options := by
  unfold surviving at h
  split at h
  · exact fallback_subset (pyLower value) (dictKeys options) s h
  · injection h with h2
    subst h2
    exact gcm_subset (pyLower value) (dictKeys options)

/-! ### Claim theorems -/

/-- C2: for every value and every list of options, if the lowercased
value equals the lowercased form of some option, `fuzzy_find` returns
an option of that lowercase form in its original casing, straight from
the dict and without entering the near-miss or fallback phases; in
particular `fuzzy_find "Open" ["open", "closed"] = "open"`. -/
theorem fuzzy_find_exact_match (value : String) (options : List String)
    (h : ∃ o ∈ options, pyLower o = pyLower value) :
    (∃ o ∈ options, pyLower o = pyLower value ∧
      fuzzy_find value options = .ok (some o))
    ∧ fuzzy_find "Open" ["open", "closed"] = .ok (some "open") := by
  refine ⟨?_, by decide⟩
  have hk : pyLower value ∈ dictKeys options := (mem_dictKeys options _).2 h
  obtain ⟨x, hget, hxopt, hxl⟩ := dictGet_exists options (pyLower value) h
  refine ⟨x, hxopt, hxl, ?_⟩
  unfold fuzzy_find
  rw [if_pos hk, hget]

/-- Witness for C2 at the example input of the spec. -/
theorem fuzzy_find_exact_match_witness :
    (∃ o ∈ ["open", "closed"], pyLower o = pyLower "Open" ∧
      fuzzy_find "Open" ["open", "closed"] = .ok (some o))
    ∧ fuzzy_find "Open" ["open", "closed"] = .ok (some "open") :=
  fuzzy_find_exact_match "Open" ["open", "closed"] ⟨"open", by decide, by decide⟩

/-- C3 (amended): when there is no exact case-insensitive match and the
matching phases complete without a regex error, `fuzzy_find` returns
the canonical form of the sole surviving candidate when exactly one
survives and the absence value otherwise — and the phases do complete
for every value whose lowercase form is free of regex metacharacters
other than the wildcard, so ordinary punctuation such as hyphens,
commas, colons or quotes never raises; in particular
`fuzzy_find "clos" ["close", "closed"]` is absent. -/
theorem fuzzy_find_tie_break :
    (∀ (value : String) (options : List String) (s : List String),
      pyLower value ∉ dictKeys options →
      surviving value options = .ok s →
      (s.length = 1 → ∃ m o, s = [m] ∧ o ∈ options ∧ pyLower o = m ∧
          fuzzy_find value options = .ok (some o))
        ∧ (s.length ≠ 1 → fuzzy_find value options = .ok none))
    ∧ (∀ (value : String) (options : List String),
      wordPatternCompiles (pyLower value) = true →
      ∃ s, surviving value options = .ok s)
    ∧ fuzzy_find "clos" ["close", "closed"] = .ok none := by
  refine ⟨fun value options s hne hs => ⟨?_, ?_⟩, fun value options hc => ?_, by decide⟩
  · intro hlen
    obtain ⟨m, rfl⟩ := List.length_eq_one.1 hlen
    have hmk : m ∈ dictKeys options :=
      surviving_subset value options [m] hs m (List.mem_singleton.2 rfl)
    obtain ⟨x, hget, hxopt, hxl⟩ :=
      dictGet_exists options m ((mem_dictKeys options m).1 hmk)
    refine ⟨m, x, rfl, hxopt, hxl, ?_⟩
    unfold fuzzy_find
    rw [if_neg hne, hs]
    show Except.ok (dictGet options m) = Except.ok (some x)
    rw [hget]
  · intro hlen
    unfold fuzzy_find
    rw [if_neg hne, hs]
    rcases s with _ | ⟨m, _ | ⟨m2, t2⟩⟩
    · rfl
    · simp at hlen
    · rfl
  · unfold surviving
    by_cases hg : (get_close_matches (pyLower value) (dictKeys options)).isEmpty = true
    · rw [if_pos hg]
      unfold fallbackMatches
      by_cases hk : (dictKeys options).isEmpty = true
      · rw [if_pos hk]
        exact ⟨[], rfl⟩
      · rw [if_neg hk, if_pos hc]
        exact ⟨_, rfl⟩
    · rw [if_neg hg]
      exact ⟨_, rfl⟩

/-- Witness for C3: at the example input of the spec two candidates
survive the near-miss phase and the absence value is returned, and a
value with a hyphen (a non-metacharacter) completes the phases without
a regex error. -/
theorem fuzzy_find_tie_break_witness :
    fuzzy_find "clos" ["close", "closed"] = .ok none
    ∧ ∃ s, surviving "a-b" ["close", "closed"] = .ok s :=
  ⟨(fuzzy_find_tie_break.1 "clos" ["close", "closed"] ["close", "closed"]
      (by decide) (by decide)).2 (by decide),
    fuzzy_find_tie_break.2.1 "a-b" ["close", "closed"] (by decide)⟩

/-- Counterexample to C3 as stated: for the metacharacter value `"("`
with option `["alpha"]` there is no exact match and zero candidates
survive, yet `fuzzy_find` raises a regex error instead of returning the
absence value. -/
theorem fuzzy_find_tie_break_counterexample :
    pyLower "(" ∉ dictKeys ["alpha"]
    ∧ fuzzy_find "(" ["alpha"] = .error "re.error" := ⟨by decide, by decide⟩

/-- C1 (amended): the whole-word containment fallback runs only when
the near-miss phase finds nothing, and matches whole delimited words
only; but on the input `"new"` with options `["renew", "new feature"]`
the near-miss phase itself finds `"renew"` (ratio 0.75 ≥ 0.6), so
`fuzzy_find` returns `"renew"`.  The fallback behaviour shows on
options with no near miss: `"new"` is rejected inside `"renewal
option"` (no word boundary) and accepted inside `"brand new
feature"`. -/
theorem fuzzy_find_word_boundary_fallback :
    fuzzy_find "new" ["renew", "new feature"] = .ok (some "renew")
    ∧ get_close_matches (pyLower "new") (dictKeys ["renew", "new feature"]) = ["renew"]
    ∧ get_close_matches (pyLower "new") (dictKeys ["renewal option", "brand new feature"]) = []
    ∧ wordMatch "new" "renewal option" = false
    ∧ wordMatch "new" "brand new feature" = true
    ∧ fuzzy_find "new" ["renewal option", "brand new feature"]
      = .ok (some "brand new feature") :=
  ⟨by decide, by decide, by decide, by decide, by decide, by decide⟩

/-- Counterexample to C1 as stated: `fuzzy_find "new"
["renew", "new feature"]` returns `"renew"`, not `"new feature"`,
because `"renew"` is an edit-distance near miss of `"new"` and the
word-boundary fallback is therefore never consulted. -/
theorem fuzzy_find_word_boundary_counterexample :
    fuzzy_find "new" ["renew", "new feature"] ≠ .ok (some "new feature")
    ∧ fuzzy_find "new" ["renew", "new feature"] = .ok (some "renew") :=
  ⟨by decide, by decide⟩

/-- C10: a value holding a regex metacharacter that has no exact match
and no near-miss candidate reaches the fallback, whose unescaped
interpolation makes the pattern fail to compile: `fuzzy_find "("
["close", "closed"]` raises a regex error rather than returning an
option or the absence value. -/
theorem fuzzy_find_metachar_error :
    get_close_matches (pyLower "(") (dictKeys ["close", "closed"]) = []
    ∧ fuzzy_find "(" ["close", "closed"] = .error "re.error" :=
  ⟨by decide, by decide⟩

/-- C4: `validate_id` returns the integer form of a convertible
argument (with no range check) and fails with an invalid-parameter
error exactly on non-convertible arguments: `validate_id "42" = 42`,
while `"abc"` and `None` raise `InvalidParameter`. -/
theorem validate_id_contract :
    validate_id (.str "42") = .ok 42
    ∧ validate_id (.str "abc")
      = .error (.invalidParameter "invalid identifier (should be an int)")
    ∧ validate_id .pyNone
      = .error (.invalidParameter "invalid identifier (should be an int)")
    ∧ (∀ n : Int, validate_id (.int n) = .ok n)
    ∧ ∀ s : String,
        (∀ n, pyIntOfString s = some n → validate_id (.str s) = .ok n)
        ∧ (pyIntOfString s = none → validate_id (.str s)
            = .error (.invalidParameter "invalid identifier (should be an int)")) := by
  refine ⟨by decide, by decide, by decide, fun n => rfl, fun s => ⟨fun n hn => ?_, fun hn => ?_⟩⟩
  · have hd : validate_id (.str s) = (match pyIntOfString s with
        | some n => Except.ok n
        | none => Except.error
            (CartmanError.invalidParameter "invalid identifier (should be an int)")) := rfl
    rw [hd, hn]
  · have hd : validate_id (.str s) = (match pyIntOfString s with
        | some n => Except.ok n
        | none => Except.error
            (CartmanError.invalidParameter "invalid identifier (should be an int)")) := rfl
    rw [hd, hn]

/-- Witness for C4 at the example inputs of the spec. -/
theorem validate_id_contract_witness :
    validate_id (.str "42") = .ok 42
    ∧ validate_id (.str "abc")
      = .error (.invalidParameter "invalid identifier (should be an int)") :=
  ⟨(validate_id_contract.2.2.2.2 "42").1 42 (by decide),
    (validate_id_contract.2.2.2.2 "abc").2 (by decide)⟩

/-- C5: `extract_timestamp` returns the value of the `ts` form field as
a string when the pattern matches and raises `FatalError` exactly when
it is absent; in particular
`extract_timestamp "<input name=\"ts\" value=\"16933221\">" = "16933221"`. -/
theorem extract_timestamp_contract :
    extract_timestamp "<input name=\"ts\" value=\"16933221\">" = .ok "16933221"
    ∧ extract_timestamp "" = .error (.fatalError "unable to fetch timestamp")
    ∧ ∀ html : String,
        (extract_timestamp html = .error (.fatalError "unable to fetch timestamp")
          ↔ searchTs html.toList = none)
        ∧ ∀ t, (extract_timestamp html = .ok t ↔ searchTs html.toList = some t) := by
  refine ⟨by decide, by decide, fun html => ?_⟩
  rcases h : searchTs html.toList with _ | t0
  · have h2 : searchTs html.data = none := h
    simp [extract_timestamp, h2]
  · have h2 : searchTs html.data = some t0 := h
    simp [extract_timestamp, h2]

/-- C6: `extract_statuses` returns the value attributes of all
radio-button `action` inputs in document order, and the empty sequence
on zero matches. -/
theorem extract_statuses_contract :
    extract_statuses "" = []
    ∧ extract_statuses "<input type=\"radio\" id=\"a\" name=\"action\" value=\"leave\" /><input type=\"radio\" id=\"b\" name=\"action\" value=\"resolve\" />"
      = ["leave", "resolve"] :=
  ⟨by decide, by decide⟩

/-- C7: `extract_status_from_ticket_page` returns the status word
captured after `leave</label> ... as` when the pattern occurs and
raises `FatalError` exactly when it does not. -/
theorem extract_status_contract :
    extract_status_from_ticket_page "<label>leave</label>\n as new\n<input>" = .ok "new"
    ∧ extract_status_from_ticket_page ""
      = .error (.fatalError "unable to fetch ticket status")
    ∧ ∀ html : String,
        (extract_status_from_ticket_page html
            = .error (.fatalError "unable to fetch ticket status")
          ↔ searchLeave html.toList = none)
        ∧ ∀ w, (extract_status_from_ticket_page html = .ok w
          ↔ searchLeave html.toList = some w) := by
  refine ⟨by decide, by decide, fun html => ?_⟩
  rcases h : searchLeave html.toList with _ | w0
  · have h2 : searchLeave html.data = none := h
    simp [extract_status_from_ticket_page, h2]
  · have h2 : searchLeave html.data = some w0 := h
    simp [extract_status_from_ticket_page, h2]

/-- C8: `extract_properties` parses the JSON captured from the
`var properties=<JSON>;` assignment into a mapping when the assignment
occurs, and returns the empty mapping, without failing, when it does
not. -/
theorem extract_properties_contract :
    extract_properties "var properties=\x7b\"a\":1\x7d;" = .ok (Json.obj [("a", Json.num 1)])
    ∧ extract_properties "" = .ok (Json.obj [])
    ∧ ∀ html : String, searchProp html.toList = none →
        extract_properties html = .ok (Json.obj []) := by
  refine ⟨by rfl, by rfl, fun html h => ?_⟩
  unfold extract_properties
  rw [h]

/-- Witness for C8 at the absent-assignment example of the spec. -/
theorem extract_properties_contract_witness :
    extract_properties "" = .ok (Json.obj []) :=
  extract_properties_contract.2.2 "" (by rfl)

/-- C9: `extract_trac_version` returns the three numeric components of
the first `Trac X.Y.Z` occurrence as an ordered triple, and the empty
sequence, without failing, when none occurs. -/
theorem extract_trac_version_contract :
    extract_trac_version "Powered by Trac 1.2.3" = [1, 2, 3]
    ∧ extract_trac_version "no version here" = []
    ∧ ∀ html : String, searchTrac html.toList = none →
        extract_trac_version html = [] := by
  refine ⟨by decide, by decide, fun html h => ?_⟩
  unfold extract_trac_version
  rw [h]

/-- Witness for C9 at the no-version example of the spec. -/
theorem extract_trac_version_contract_witness :
    extract_trac_version "no version here" = [] :=
  extract_trac_version_contract.2.2 "no version here" (by decide)
